import Mathlib

/-!
Verification of the contract-classifier batch explainability pipeline.

This file shallowly embeds the relevant parts of the repository:

* `src/services/ml_services.py` — the `MLService` class (`predict`);
* `src/api/endpoints.py` — the `/classify` and `/classify-explain-batch`
  handlers;
* `src/api/schemas.py` — the request validation constraints;
* `demo.py` — the chunking-and-alignment client `get_probabilities_for_lime`.

Probabilities are modelled with `ℚ`; the external tokenizer/model/softmax
stack is a parameter (`Model.probs`), as is the HTTP transport of the demo
client (`net`).
-/

namespace ContractClassifier

/-! ### Python string predicates -/

/-- The characters Python's `str.isspace` treats as whitespace
(ASCII core: space, tab, newline, vertical tab, form feed, carriage return). -/
def pyIsSpaceChar (c : Char) : Bool :=
  c == ' ' || c == '\t' || c == '\n' || c == '\r' || c.toNat == 11 || c.toNat == 12

/-- Python `s.isspace()`: `s` is nonempty and every character is whitespace. -/
def pyIsSpace (s : String) : Bool :=
  !s.isEmpty && s.toList.all pyIsSpaceChar

/-- The demo client's fragment filter `t and not t.isspace()` (demo.py line 76):
the fragment is neither empty nor whitespace-only. -/
def isValidFragment (t : String) : Bool :=
  !t.isEmpty && !(pyIsSpace t)

/-! ### The demo client (demo.py, `get_probabilities_for_lime`) -/

/-- `CLASS_NAMES` from demo.py. -/
def CLASS_NAMES : List String := ["Employment", "NDA", "Partnership", "SLA", "Vendor"]

/-- A probability mapping as parsed from a JSON object (label name to value). -/
abbrev ProbDict : Type := List (String × ℚ)

/-- The fallback row `[1.0 / len(CLASS_NAMES)] * len(CLASS_NAMES)`. -/
def uniformRow : List ℚ :=
  List.replicate CLASS_NAMES.length ((1 : ℚ) / CLASS_NAMES.length)

/-- `chunk_size = 64` in demo.py. -/
def chunkSize : Nat := 64

/-- The Python loop `for i in range(0, len(texts), chunk_size)` together with the
slices `texts[i:i + chunk_size]`: the input partitioned into consecutive chunks
of at most `chunkSize` elements. -/
def chunksOf : List String → List (List String)
  | [] => []
  | x :: xs => ((x :: xs).take chunkSize) :: chunksOf ((x :: xs).drop chunkSize)
termination_by l => l.length
decreasing_by simp [List.length_drop, chunkSize]; omega

/-- `valid_texts_in_chunk = [t for t in chunk if t and not t.isspace()]`. -/
def chunkPayload (chunk : List String) : List String :=
  chunk.filter isValidFragment

/-- Lookup in
`result_map = {text: probs for text, probs in zip(valid_texts_in_chunk, probs_list)}`:
a Python dict comprehension keeps the LAST binding of a duplicated key. -/
def lookupLast (k : String) : List (String × ProbDict) → Option ProbDict
  | [] => none
  | (k2, v) :: rest =>
    match lookupLast k rest with
    | some v2 => some v2
    | none => if k2 == k then some v else none

/-- The re-expansion step for one original fragment of a chunk:
`probs_dict = result_map.get(original_text)`; when the dict is present and
non-empty (Python truthiness) the row is
`[probs_dict.get(name, 0.0) for name in CLASS_NAMES]`, otherwise the uniform
fallback row. -/
def expandRow (rmap : List (String × ProbDict)) (t : String) : List ℚ :=
  match lookupLast t rmap with
  | some d => if d.isEmpty then uniformRow
              else CLASS_NAMES.map (fun name => ((d.lookup name).getD 0))
  | none => uniformRow

/-- One iteration of the chunk loop. `net` models one HTTP POST to the
batch-explain endpoint: `none` is a raised `requests.exceptions.RequestException`
(connection error, timeout, or `raise_for_status`), `some probs_list` is a
successful response's parsed `all_probabilities`. A chunk with no valid
fragments makes no network call and contributes `len(chunk)` uniform rows;
a failed call aborts the whole function (`none` here). -/
def processChunk (net : List String → Option (List ProbDict))
    (chunk : List String) : Option (List (List ℚ)) :=
  let valid := chunkPayload chunk
  if valid.isEmpty then some (List.replicate chunk.length uniformRow)
  else
    match net valid with
    | none => none
    | some probs_list => some (chunk.map (expandRow (valid.zip probs_list)))

/-- The chunk loop: concatenates the rows of each chunk in order, or fails as a
whole if any chunk's network call fails. -/
def processChunks (net : List String → Option (List ProbDict)) :
    List (List String) → Option (List (List ℚ))
  | [] => some []
  | c :: cs =>
    match processChunk net c, processChunks net cs with
    | some r, some rs => some (r ++ rs)
    | _, _ => none

/-- `get_probabilities_for_lime(texts)` from demo.py: chunked dispatch with
per-fragment re-alignment; on any chunk-level network failure the early
`return np.array([[1.0 / len(CLASS_NAMES)] * len(CLASS_NAMES)] * len(texts))`
replaces the result for the whole input. -/
def get_probabilities_for_lime (net : List String → Option (List ProbDict))
    (texts : List String) : List (List ℚ) :=
  match processChunks net (chunksOf texts) with
  | some rows => rows
  | none => List.replicate texts.length uniformRow

/-! ### The ML service (src/services/ml_services.py) -/

/-- The external collaborators of `MLService.predict`, folded into one handle:
`probs` is the tokenizer + forward pass + softmax composite (it produces the
probability vector for a text, or raises — any torch/tokenizer exception is an
`Except.error`), and `labels` is the ordered label set behind
`model.config.id2label` (index position is the canonical ordering). -/
structure Model where
  probs : String → Except String (List ℚ)
  labels : List String

/-- `self.model.config.id2label[i]`: a missing key is a raised `KeyError`. -/
def Model.id2label (m : Model) (i : Nat) : Option String :=
  m.labels[i]?

/-- The `MLService` instance state: `model` and `tokenizer` start as `None` in
`__init__` and are set by `load`. The tokenizer's own content lives inside
`Model.probs`, so only its presence is tracked here. -/
structure MLService where
  model : Option Model
  tokenizer : Option Unit

/-- Inner loop of `torch.max(probabilities, dim=1)`: `best` and `bi` are the
current maximum and its index, `i` the index of the head of the remaining list;
ties keep the earlier index. -/
def torchMaxAux (best : ℚ) (bi : Nat) (i : Nat) : List ℚ → ℚ × Nat
  | [] => (best, bi)
  | y :: ys => if best < y then torchMaxAux y i (i + 1) ys else torchMaxAux best bi (i + 1) ys

/-- `torch.max(probabilities, dim=1)` on a 1 × n tensor: the maximum value and
the first index attaining it; `none` models the exception torch raises when the
reduction dimension is empty. -/
def torchMax : List ℚ → Option (ℚ × Nat)
  | [] => none
  | x :: xs => some (torchMaxAux x 0 1 xs)

/-- The message of the `RuntimeError` raised by `predict` before `load`. -/
def modelNotLoadedMsg : String := "Model is not loaded. Call the load() method first."

/-- `MLService.predict(text)`: raises unless both model and tokenizer are
loaded; otherwise computes the softmax distribution, takes max/argmax, and maps
the argmax index through `id2label`. Every raised exception is an
`Except.error`. -/
def MLService.predict (svc : MLService) (text : String) : Except String (String × ℚ) :=
  match svc.model, svc.tokenizer with
  | some m, some _ =>
    match m.probs text with
    | .error e => .error e
    | .ok probabilities =>
      match torchMax probabilities with
      | none => .error "max(): expected reduction dim 1 to have non-zero size"
      | some (confidence_score, predicted_class_id) =>
        match m.id2label predicted_class_id with
        | none => .error "KeyError in id2label"
        | some predicted_category => .ok (predicted_category, confidence_score)
  | _, _ => .error modelNotLoadedMsg

/-- Number of model forward passes `predict` performs: exactly one when the
service is loaded (the inference runs, whether or not it then raises), none
when the not-loaded guard fires first. -/
def modelInvocations (svc : MLService) : Nat :=
  match svc.model, svc.tokenizer with
  | some _, some _ => 1
  | _, _ => 0

/-! ### The API layer (src/api/endpoints.py, src/api/schemas.py) -/

/-- Outcome of an HTTP endpoint call: a response body, or an
`HTTPException(status_code, detail)`. -/
inductive ApiResult (α : Type) where
  | ok : α → ApiResult α
  | httpError : Nat → String → ApiResult α
deriving DecidableEq

/-- `ContractRequest` (schemas.py): the body of a single-classification
request, after validation. -/
structure ContractRequest where
  text : String

/-- `ClassificationResponse` (schemas.py). -/
structure ClassificationResponse where
  predicted_category : String
  confidence_score : ℚ
deriving DecidableEq

/-- The `/classify` handler `classify_contract`: any exception from
`ml_service.predict` is caught and re-raised as
`HTTPException(status_code=500, detail=str(e))`. -/
def classify_contract (svc : MLService) (request : ContractRequest) :
    ApiResult ClassificationResponse :=
  match svc.predict request.text with
  | .ok (category, confidence) => .ok ⟨category, confidence⟩
  | .error e => .httpError 500 e

/-- `min_length=50` on `ContractRequest.text` (schemas.py). -/
def minLength : Nat := 50

/-- The full `/classify` route: FastAPI validates the body against
`ContractRequest` (`min_length=50`) before the handler runs; a failure is
answered with HTTP 422 and the handler — hence the model — is never invoked.
The `Nat` component counts model forward passes performed for the request. -/
def classify_route (svc : MLService) (body : String) :
    ApiResult ClassificationResponse × Nat :=
  if body.length < minLength then
    (ApiResult.httpError 422 "String should have at least 50 characters", 0)
  else
    (classify_contract svc ⟨body⟩, modelInvocations svc)

/-- `BatchContractRequest` (schemas.py): `texts`, validated upstream to
`min_items=1, max_items=5000`. -/
structure BatchContractRequest where
  texts : List String

/-- `str(e)` for the `AttributeError` raised when the `/classify-explain-batch`
handler evaluates `ml_service.predict_explain_batch`. -/
def attributeErrorMessage : String :=
  "AttributeError: MLService object has no attribute predict_explain_batch"

/-- Type of a batch-explain service method, as the handler would call it. -/
abbrev BatchMethod : Type := MLService → List String → Except String (List ProbDict)

/-- The `classify_contract_explain_batch` handler body, parametrized by the
attribute lookup `ml_service.predict_explain_batch`: a failed lookup raises
`AttributeError` inside the `try`, so the `except` branch answers HTTP 500;
with a method present, its result is returned, and any exception it raises is
likewise answered with HTTP 500. -/
def explain_batch_handler (method : Option BatchMethod) (svc : MLService)
    (req : BatchContractRequest) : ApiResult (List ProbDict) :=
  match method with
  | none => ApiResult.httpError 500 attributeErrorMessage
  | some f =>
    match f svc req.texts with
    | .ok ps => ApiResult.ok ps
    | .error e => ApiResult.httpError 500 e

/-- Attribute lookup of `predict_explain_batch` on the `MLService` class as
written in src/services/ml_services.py: the class defines only `__init__`,
`load` and `predict`, so the lookup finds nothing. -/
def mlServiceBatchAttr : Option BatchMethod := none

/-- The `/classify-explain-batch` endpoint exactly as the repository ships it:
the handler calling the (absent) `predict_explain_batch` attribute. -/
def classify_contract_explain_batch (svc : MLService) (req : BatchContractRequest) :
    ApiResult (List ProbDict) :=
  explain_batch_handler mlServiceBatchAttr svc req

/-! ### The Batch-Explain Service, modelled from the spec

The `/classify-explain-batch` handler calls `ml_service.predict_explain_batch`,
but src/services/ml_services.py defines no such method; only its caller is in
the sources. The definitions below model the missing method from the spec
(§4.3) so that the spec's claims about it can be stated. -/

/-- Modelled from the spec: the uniform substitute distribution, "a uniform
distribution across all labels (1/num_labels for each)", keyed by the ordered
Label Set. -/
def uniformDist (labels : List String) : ProbDict :=
  labels.map (fun l => (l, (1 : ℚ) / labels.length))

/-- Modelled from the spec: the Batch-Explain Service's handling of one
fragment (§4.3). An empty or whitespace-only fragment gets the uniform
distribution without the Model Inference Adapter being invoked; otherwise the
adapter's distribution is returned keyed by the Label Set, and an adapter
failure fails the fragment (and hence the batch, atomically). -/
def explainFragment (m : Model) (t : String) : Except String ProbDict :=
  if t.isEmpty || pyIsSpace t then .ok (uniformDist m.labels)
  else
    match m.probs t with
    | .error e => .error e
    | .ok probs => .ok (m.labels.zip probs)

/-- Modelled from the spec: the fragment loop of the Batch-Explain Service —
one distribution per fragment, in input order, whole batch failing if any
single inference fails (§4.3, atomic failure). -/
def explainList (m : Model) : List String → Except String (List ProbDict)
  | [] => .ok []
  | t :: ts =>
    match explainFragment m t, explainList m ts with
    | .ok d, .ok ds => .ok (d :: ds)
    | .error e, _ => .error e
    | .ok _, .error e => .error e

/-- Modelled from the spec: `MLService.predict_explain_batch`, the method the
`/classify-explain-batch` handler expects: fails when the model is not loaded,
otherwise maps `explainFragment` over the fragments preserving order. -/
def MLService.predict_explain_batch (svc : MLService) (texts : List String) :
    Except String (List ProbDict) :=
  match svc.model, svc.tokenizer with
  | some m, some _ => explainList m texts
  | _, _ => .error modelNotLoadedMsg

/-- The `/classify-explain-batch` endpoint as the spec intends it: the handler
from endpoints.py with the spec-modelled service method present. -/
def explain_batch_endpoint_spec (svc : MLService) (req : BatchContractRequest) :
    ApiResult (List ProbDict) :=
  explain_batch_handler (some MLService.predict_explain_batch) svc req

/-! ### Lemmas about the demo client -/

theorem chunksOf_unfold (xs : List String) :
    chunksOf xs =
      if xs.isEmpty then [] else xs.take chunkSize :: chunksOf (xs.drop chunkSize) := by
  cases xs <;> simp [chunksOf]

theorem chunksOf_flatten (xs : List String) : (chunksOf xs).flatten = xs := by
  have H : ∀ (n : Nat) (ys : List String), ys.length ≤ n → (chunksOf ys).flatten = ys := by
    intro n
    induction n with
    | zero =>
      intro ys h
      have hy : ys = [] := List.length_eq_zero.mp (Nat.le_zero.mp h)
      subst hy
      simp [chunksOf]
    | succ n ih =>
      intro ys h
      cases ys with
      | nil => simp [chunksOf]
      | cons y ys =>
        rw [chunksOf_unfold, if_neg (by simp), List.flatten_cons,
          ih ((y :: ys).drop chunkSize)
            (by simp only [List.length_drop, List.length_cons, chunkSize] at h ⊢; omega),
          List.take_append_drop]
  exact H xs.length xs le_rfl

theorem processChunk_length (net : List String → Option (List ProbDict))
    (c : List String) (rows : List (List ℚ)) (h : processChunk net c = some rows) :
    rows.length = c.length := by
  cases hv : (chunkPayload c).isEmpty with
  | true =>
    simp [processChunk, hv] at h
    rw [← h]
    simp
  | false =>
    cases hn : net (chunkPayload c) with
    | none => simp [processChunk, hv, hn] at h
    | some pl =>
      simp [processChunk, hv, hn] at h
      rw [← h]
      simp

theorem processChunks_length (net : List String → Option (List ProbDict)) :
    ∀ (cs : List (List String)) (rows : List (List ℚ)),
      processChunks net cs = some rows → rows.length = cs.flatten.length := by
  intro cs
  induction cs with
  | nil =>
    intro rows h
    simp [processChunks] at h
    simp [← h]
  | cons c cs ih =>
    intro rows h
    cases h1 : processChunk net c with
    | none => simp [processChunks, h1] at h
    | some r =>
      cases h2 : processChunks net cs with
      | none => simp [processChunks, h1, h2] at h
      | some rs =>
        simp [processChunks, h1, h2] at h
        rw [← h]
        simp [List.length_append, processChunk_length net c r h1, ih rs h2]

theorem gpl_length (net : List String → Option (List ProbDict)) (texts : List String) :
    (get_probabilities_for_lime net texts).length = texts.length := by
  unfold get_probabilities_for_lime
  cases h : processChunks net (chunksOf texts) with
  | none => simp
  | some rows => simpa [chunksOf_flatten] using processChunks_length net _ rows h

theorem lookupLast_eq_none {k : String} :
    ∀ {l : List (String × ProbDict)}, (∀ p ∈ l, p.1 ≠ k) → lookupLast k l = none := by
  intro l
  induction l with
  | nil => intro _; rfl
  | cons p rest ih =>
    intro h
    obtain ⟨k2, v⟩ := p
    have hk : k2 ≠ k := h (k2, v) (List.mem_cons_self _ _)
    simp [lookupLast, ih (fun q hq => h q (List.mem_cons_of_mem _ hq)), hk]

theorem expandRow_not_key {rmap : List (String × ProbDict)} {t : String}
    (h : ∀ p ∈ rmap, p.1 ≠ t) : expandRow rmap t = uniformRow := by
  simp [expandRow, lookupLast_eq_none h]

theorem expandRow_invalid {c : List String} {pl : List ProbDict} {t : String}
    (hinv : isValidFragment t = false) :
    expandRow ((chunkPayload c).zip pl) t = uniformRow := by
  apply expandRow_not_key
  rintro ⟨a, b⟩ hp rfl
  have hmem : a ∈ chunkPayload c := (List.of_mem_zip hp).1
  have hval : isValidFragment a = true := (List.mem_filter.mp hmem).2
  rw [hval] at hinv
  cases hinv

theorem processChunk_getElem_invalid (net : List String → Option (List ProbDict))
    (ch : List String) (rows : List (List ℚ)) (i : Nat) (t : String)
    (h : processChunk net ch = some rows) (ht : ch[i]? = some t)
    (hinv : isValidFragment t = false) : rows[i]? = some uniformRow := by
  have hi : i < ch.length := (List.getElem?_eq_some_iff.mp ht).1
  cases hv : (chunkPayload ch).isEmpty with
  | true =>
    simp [processChunk, hv] at h
    rw [← h]
    simp [List.getElem?_replicate, hi]
  | false =>
    cases hn : net (chunkPayload ch) with
    | none => simp [processChunk, hv, hn] at h
    | some pl =>
      simp [processChunk, hv, hn] at h
      rw [← h]
      simp [List.getElem?_map, ht, expandRow_invalid hinv]

theorem processChunks_getElem_invalid (net : List String → Option (List ProbDict)) :
    ∀ (cs : List (List String)) (rows : List (List ℚ)) (i : Nat) (t : String),
      processChunks net cs = some rows → cs.flatten[i]? = some t →
      isValidFragment t = false → rows[i]? = some uniformRow := by
  intro cs
  induction cs with
  | nil =>
    intro rows i t h ht _
    simp at ht
  | cons c cs ih =>
    intro rows i t h ht hinv
    cases h1 : processChunk net c with
    | none => simp [processChunks, h1] at h
    | some r =>
      cases h2 : processChunks net cs with
      | none => simp [processChunks, h1, h2] at h
      | some rs =>
        simp [processChunks, h1, h2] at h
        rw [← h]
        have hrlen : r.length = c.length := processChunk_length net c r h1
        rw [List.flatten_cons] at ht
        by_cases hic : i < c.length
        · rw [List.getElem?_append_left hic] at ht
          rw [List.getElem?_append_left (by omega)]
          exact processChunk_getElem_invalid net c r i t h1 ht hinv
        · rw [List.getElem?_append_right (by omega)] at ht
          rw [List.getElem?_append_right (by omega), hrlen]
          exact ih rs (i - c.length) t h2 ht hinv

theorem gpl_getElem_invalid (net : List String → Option (List ProbDict))
    (texts : List String) (i : Nat) (t : String)
    (ht : texts[i]? = some t) (hinv : isValidFragment t = false) :
    (get_probabilities_for_lime net texts)[i]? = some uniformRow := by
  unfold get_probabilities_for_lime
  cases h : processChunks net (chunksOf texts) with
  | none =>
    have hi : i < texts.length := (List.getElem?_eq_some_iff.mp ht).1
    simp [List.getElem?_replicate, hi]
  | some rows =>
    exact processChunks_getElem_invalid net _ rows i t h (by rwa [chunksOf_flatten]) hinv

theorem processChunk_eq_none (net : List String → Option (List ProbDict))
    (c : List String) (hv : (chunkPayload c).isEmpty = false)
    (hn : net (chunkPayload c) = none) : processChunk net c = none := by
  simp [processChunk, hv, hn]

theorem processChunks_none_of_mem (net : List String → Option (List ProbDict)) :
    ∀ (cs : List (List String)) (c : List String), c ∈ cs →
      processChunk net c = none → processChunks net cs = none := by
  intro cs
  induction cs with
  | nil => intro c hc; simp at hc
  | cons c0 cs ih =>
    intro c hc hnone
    rcases List.mem_cons.mp hc with rfl | hmem
    · simp [processChunks, hnone]
    · cases h1 : processChunk net c0 with
      | none => simp [processChunks, h1]
      | some r => simp [processChunks, h1, ih c hmem hnone]

theorem chunksOf_lengths_130 (xs : List String) (h : xs.length = 130) :
    (chunksOf xs).map List.length = [64, 64, 2] := by
  have h1 : (xs.drop chunkSize).length = 66 := by
    rw [List.length_drop, h]; decide
  have h2 : ((xs.drop chunkSize).drop chunkSize).length = 2 := by
    rw [List.length_drop, h1]; decide
  have h3 : (((xs.drop chunkSize).drop chunkSize).drop chunkSize) = [] := by
    apply List.drop_of_length_le
    rw [h2]
    decide
  have hne0 : xs ≠ [] := by
    intro he; rw [he] at h; exact absurd h (by decide)
  have hne1 : xs.drop chunkSize ≠ [] := by
    intro he; rw [he] at h1; exact absurd h1 (by decide)
  have hne2 : (xs.drop chunkSize).drop chunkSize ≠ [] := by
    intro he; rw [he] at h2; exact absurd h2 (by decide)
  rw [chunksOf_unfold, if_neg (fun hh => hne0 (List.isEmpty_iff.mp hh)),
    chunksOf_unfold (xs.drop chunkSize),
    if_neg (fun hh => hne1 (List.isEmpty_iff.mp hh)),
    chunksOf_unfold ((xs.drop chunkSize).drop chunkSize),
    if_neg (fun hh => hne2 (List.isEmpty_iff.mp hh)),
    h3, chunksOf_unfold]
  simp only [List.isEmpty_nil, if_true, List.map_cons, List.map_nil, List.length_take, h, h1, h2]
  simp [chunkSize]

/-- A network transport whose calls always fail (every POST raises
`requests.exceptions.RequestException`); used to instantiate theorems. -/
def failNet : List String → Option (List ProbDict) := fun _ => none

/-! ### Claims C4, C5, C6 -/

/-- Claim C4: if the network call for any chunk fails definitively, the demo
client returns the uniform-distribution fallback for every fragment of the
entire input (a list of `len(texts)` uniform rows), not only the failed
chunk's fragments. The failure is consumed inside the client — the result is
this ordinary return value, never a propagated exception. -/
theorem chunk_failure_uniform_failsafe (net : List String → Option (List ProbDict))
    (texts ch : List String) (hc : ch ∈ chunksOf texts)
    (hv : (chunkPayload ch).isEmpty = false) (hn : net (chunkPayload ch) = none) :
    get_probabilities_for_lime net texts = List.replicate texts.length uniformRow := by
  unfold get_probabilities_for_lime
  rw [processChunks_none_of_mem net (chunksOf texts) ch hc (processChunk_eq_none net ch hv hn)]

/-- Witness for C4: a one-fragment input whose single chunk call fails yields
exactly one uniform fallback row. -/
theorem chunk_failure_uniform_failsafe_witness :
    get_probabilities_for_lime failNet ["ab"] = List.replicate 1 uniformRow := by
  have hch : chunksOf ["ab"] = [["ab"]] := by
    rw [chunksOf_unfold, if_neg (by simp), chunksOf_unfold]
    simp [chunkSize]
  exact chunk_failure_uniform_failsafe failNet ["ab"] ["ab"]
    (by rw [hch]; exact List.mem_cons_self _ _) (by decide) rfl

/-- Claim C5: the demo client partitions its input into chunks of (at most) 64
in order — concatenating the chunks gives back exactly the input — and its
output always has exactly the input's length; for a 130-fragment input the
partition is 3 chunks of sizes 64, 64 and 2. -/
theorem chunking_partition_and_length (net : List String → Option (List ProbDict))
    (texts : List String) :
    (chunksOf texts).flatten = texts ∧
    (get_probabilities_for_lime net texts).length = texts.length ∧
    (texts.length = 130 →
      (chunksOf texts).map List.length = [64, 64, 2] ∧ (chunksOf texts).length = 3) := by
  refine ⟨chunksOf_flatten texts, gpl_length net texts, fun h130 => ?_⟩
  have hmap := chunksOf_lengths_130 texts h130
  refine ⟨hmap, ?_⟩
  have := congrArg List.length hmap
  simpa using this

/-- Witness for C5: a concrete 130-fragment input is partitioned into chunks of
sizes 64, 64 and 2, and the output has 130 rows. -/
theorem chunking_partition_and_length_witness :
    (chunksOf (List.replicate 130 "x")).map List.length = [64, 64, 2] ∧
    (get_probabilities_for_lime failNet (List.replicate 130 "x")).length = 130 := by
  obtain ⟨-, h2, h3⟩ := chunking_partition_and_length failNet (List.replicate 130 "x")
  exact ⟨(h3 (by simp)).1, by simpa using h2⟩

/-- Claim C6: the demo client sends only non-empty, non-whitespace fragments to
the service (every element of a chunk's payload passes the validity filter);
any input fragment that fails the filter gets the uniform fallback row at its
original global position; and within a chunk answered by the service, any
fragment whose text is absent from the response lookup gets the uniform
fallback row at its position in the chunk. -/
theorem filter_and_fallback_alignment (net : List String → Option (List ProbDict))
    (texts : List String) :
    (∀ ch ∈ chunksOf texts, ∀ t ∈ chunkPayload ch, isValidFragment t = true) ∧
    (∀ (i : Nat) (t : String), texts[i]? = some t → isValidFragment t = false →
      (get_probabilities_for_lime net texts)[i]? = some uniformRow) ∧
    (∀ (ch : List String) (pl : List ProbDict) (rows : List (List ℚ)) (i : Nat) (t : String),
      net (chunkPayload ch) = some pl → processChunk net ch = some rows →
      ch[i]? = some t → lookupLast t ((chunkPayload ch).zip pl) = none →
      rows[i]? = some uniformRow) := by
  refine ⟨?_, ?_, ?_⟩
  · intro ch _ t ht
    exact (List.mem_filter.mp ht).2
  · intro i t ht hinv
    exact gpl_getElem_invalid net texts i t ht hinv
  · intro ch pl rows i t hnet hrows ht hlook
    have hi : i < ch.length := (List.getElem?_eq_some_iff.mp ht).1
    cases hv : (chunkPayload ch).isEmpty with
    | true =>
      simp [processChunk, hv] at hrows
      rw [← hrows]
      simp [List.getElem?_replicate, hi]
    | false =>
      simp [processChunk, hv, hnet] at hrows
      rw [← hrows]
      simp [List.getElem?_map, ht, expandRow, hlook]

/-- Witness for C6: a whitespace-only fragment receives the uniform fallback at
its position in the output. -/
theorem filter_and_fallback_alignment_witness :
    (get_probabilities_for_lime failNet [" "])[0]? = some uniformRow :=
  (filter_and_fallback_alignment failNet [" "]).2.1 0 " " rfl (by decide)

/-! ### Lemmas about `torch.max` and `predict` -/

theorem torchMaxAux_spec :
    ∀ (ys pre : List ℚ) (best : ℚ) (bi : Nat),
      pre[bi]? = some best →
      (∀ x ∈ pre, x ≤ best) →
      (∀ j, j < bi → ∀ y, pre[j]? = some y → y < best) →
      (pre ++ ys)[(torchMaxAux best bi pre.length ys).2]? =
          some (torchMaxAux best bi pre.length ys).1 ∧
        (∀ x ∈ pre ++ ys, x ≤ (torchMaxAux best bi pre.length ys).1) ∧
        (∀ j, j < (torchMaxAux best bi pre.length ys).2 →
          ∀ y, (pre ++ ys)[j]? = some y → y < (torchMaxAux best bi pre.length ys).1) := by
  intro ys
  induction ys with
  | nil =>
    intro pre best bi hget hub hstrict
    simpa [torchMaxAux] using ⟨hget, hub, hstrict⟩
  | cons y ys ih =>
    intro pre best bi hget hub hstrict
    have hbi : bi < pre.length := (List.getElem?_eq_some_iff.mp hget).1
    have happ : pre ++ y :: ys = (pre ++ [y]) ++ ys := by
      rw [List.append_assoc]
      rfl
    have hlen : (pre ++ [y]).length = pre.length + 1 := by simp
    by_cases hlt : best < y
    · have hstep : torchMaxAux best bi pre.length (y :: ys) =
          torchMaxAux y pre.length (pre.length + 1) ys := by
        simp [torchMaxAux, hlt]
      have h1 : (pre ++ [y])[pre.length]? = some y := by
        rw [List.getElem?_append_right (Nat.le_refl _)]
        simp
      have h2 : ∀ x ∈ pre ++ [y], x ≤ y := by
        intro x hx
        rcases List.mem_append.mp hx with hx | hx
        · exact le_of_lt (lt_of_le_of_lt (hub x hx) hlt)
        · rw [List.mem_singleton.mp hx]
      have h3 : ∀ j, j < pre.length → ∀ v, (pre ++ [y])[j]? = some v → v < y := by
        intro j hj v hv
        rw [List.getElem?_append_left hj] at hv
        exact lt_of_le_of_lt (hub v (List.getElem?_mem hv)) hlt
      have := ih (pre ++ [y]) y pre.length h1 h2 h3
      rw [hstep, happ]
      rw [hlen] at this
      exact this
    · have hstep : torchMaxAux best bi pre.length (y :: ys) =
          torchMaxAux best bi (pre.length + 1) ys := by
        simp [torchMaxAux, hlt]
      have h1 : (pre ++ [y])[bi]? = some best := by
        rw [List.getElem?_append_left hbi]
        exact hget
      have h2 : ∀ x ∈ pre ++ [y], x ≤ best := by
        intro x hx
        rcases List.mem_append.mp hx with hx | hx
        · exact hub x hx
        · rw [List.mem_singleton.mp hx]
          exact le_of_not_lt hlt
      have h3 : ∀ j, j < bi → ∀ v, (pre ++ [y])[j]? = some v → v < best := by
        intro j hj v hv
        rw [List.getElem?_append_left (Nat.lt_trans hj hbi)] at hv
        exact hstrict j hj v hv
      have := ih (pre ++ [y]) best bi h1 h2 h3
      rw [hstep, happ]
      rw [hlen] at this
      exact this

theorem torchMax_spec (probs : List ℚ) (conf : ℚ) (idx : Nat)
    (h : torchMax probs = some (conf, idx)) :
    probs[idx]? = some conf ∧ (∀ x ∈ probs, x ≤ conf) ∧
      ∀ j, j < idx → ∀ y, probs[j]? = some y → y < conf := by
  cases probs with
  | nil => simp [torchMax] at h
  | cons x xs =>
    simp only [torchMax, Option.some.injEq] at h
    have := torchMaxAux_spec xs [x] x 0 (by simp) (by simp)
      (by intro j hj; omega)
    simp only [List.length_cons, List.length_nil, List.singleton_append] at this
    rw [h] at this
    exact this

theorem explainList_align (m : Model) :
    ∀ (ts : List String) (rs : List ProbDict), explainList m ts = Except.ok rs →
      rs.length = ts.length ∧
      ∀ (i : Nat) (t : String), ts[i]? = some t →
        ∃ d, rs[i]? = some d ∧ explainFragment m t = Except.ok d := by
  intro ts
  induction ts with
  | nil =>
    intro rs h
    simp only [explainList, Except.ok.injEq] at h
    subst h
    exact ⟨rfl, by intro i t ht; simp at ht⟩
  | cons t0 ts ih =>
    intro rs h
    cases h1 : explainFragment m t0 with
    | error e => simp [explainList, h1] at h
    | ok d0 =>
      cases h2 : explainList m ts with
      | error e => simp [explainList, h1, h2] at h
      | ok ds =>
        simp only [explainList, h1, h2, Except.ok.injEq] at h
        subst h
        obtain ⟨hlen, halign⟩ := ih ds h2
        refine ⟨by simp [hlen], ?_⟩
        intro i t ht
        cases i with
        | zero =>
          simp only [List.getElem?_cons_zero, Option.some.injEq] at ht
          subst ht
          exact ⟨d0, by simp, h1⟩
        | succ i =>
          simp only [List.getElem?_cons_succ] at ht ⊢
          exact halign i t ht

/-! ### Claims C1, C2, C3 -/

/-- Claim C1: for every batch request (1 to 5000 fragments) the batch-explain
operation answers successfully, the response has exactly one probability
distribution per input fragment, in the same order: the i-th distribution is
the one the (spec-modelled) service computes for the i-th fragment. -/
theorem batch_explain_alignment (svc : MLService) (req : BatchContractRequest)
    (resp : List ProbDict)
    (hlo : 1 ≤ req.texts.length) (hhi : req.texts.length ≤ 5000)
    (h : explain_batch_endpoint_spec svc req = ApiResult.ok resp) :
    resp.length = req.texts.length ∧
    ∃ m, svc.model = some m ∧
      ∀ (i : Nat) (t : String), req.texts[i]? = some t →
        ∃ d, resp[i]? = some d ∧ explainFragment m t = Except.ok d := by
  cases hres : MLService.predict_explain_batch svc req.texts with
  | error e =>
    simp only [explain_batch_endpoint_spec, explain_batch_handler, hres] at h
    cases h
  | ok ps =>
    simp only [explain_batch_endpoint_spec, explain_batch_handler, hres,
      ApiResult.ok.injEq] at h
    rw [h] at hres
    cases hm : svc.model with
    | none => simp [MLService.predict_explain_batch, hm] at hres
    | some m =>
      cases htk : svc.tokenizer with
      | none => simp [MLService.predict_explain_batch, hm, htk] at hres
      | some u =>
        rw [MLService.predict_explain_batch, hm, htk] at hres
        obtain ⟨hlen, halign⟩ := explainList_align m req.texts resp hres
        exact ⟨hlen, m, rfl, halign⟩

/-- A concrete loaded service used to instantiate theorems: two labels, every
inference returning the distribution `[1/2, 1/2]`. -/
def modelW : Model := ⟨fun _ => Except.ok [(1 : ℚ)/2, (1 : ℚ)/2], ["A", "B"]⟩

/-- The service with `modelW` loaded. -/
def svcW : MLService := ⟨some modelW, some ()⟩

/-- Witness for C1: a one-fragment batch through the spec-modelled endpoint is
answered in order with one distribution for that fragment. -/
theorem batch_explain_alignment_witness :
    ([[("A", (1 : ℚ)/2), ("B", (1 : ℚ)/2)]] : List ProbDict).length =
        (BatchContractRequest.mk ["hello"]).texts.length ∧
    ∃ m, svcW.model = some m ∧
      ∀ (i : Nat) (t : String), (BatchContractRequest.mk ["hello"]).texts[i]? = some t →
        ∃ d, ([[("A", (1 : ℚ)/2), ("B", (1 : ℚ)/2)]] : List ProbDict)[i]? = some d ∧
          explainFragment m t = Except.ok d :=
  batch_explain_alignment svcW ⟨["hello"]⟩ [[("A", (1 : ℚ)/2), ("B", (1 : ℚ)/2)]]
    (by decide) (by decide) (by rfl)

/-- Claim C2: with the repository's `MLService` as written (no
`predict_explain_batch` method), every request reaching the
`/classify-explain-batch` handler is answered with HTTP 500 carrying the
`AttributeError` text — the success path is unreachable. -/
theorem batch_endpoint_always_500 (svc : MLService) (req : BatchContractRequest) :
    classify_contract_explain_batch svc req =
      ApiResult.httpError 500 attributeErrorMessage := rfl

/-- Claim C3: for an empty or whitespace-only fragment in a batch handled by
the (spec-modelled) Batch-Explain Service, the returned entry at that
fragment's position is exactly the uniform distribution, 1/num_labels per
label of the Label Set, and the per-fragment computation never consults the
Model Inference Adapter (its result is unchanged under any replacement of the
adapter function). -/
theorem blank_fragment_uniform_no_inference (svc : MLService) (m : Model)
    (texts : List String) (i : Nat) (t : String) (rs : List ProbDict)
    (hm : svc.model = some m)
    (ht : texts[i]? = some t)
    (hblank : (t.isEmpty || pyIsSpace t) = true)
    (hok : svc.predict_explain_batch texts = Except.ok rs) :
    rs[i]? = some (m.labels.map (fun l => (l, (1 : ℚ) / m.labels.length))) ∧
    ∀ f g : String → Except String (List ℚ),
      explainFragment ⟨f, m.labels⟩ t = explainFragment ⟨g, m.labels⟩ t := by
  cases htk : svc.tokenizer with
  | none => rw [MLService.predict_explain_batch, hm, htk] at hok; cases hok
  | some u =>
    rw [MLService.predict_explain_batch, hm, htk] at hok
    obtain ⟨-, halign⟩ := explainList_align m texts rs hok
    obtain ⟨d, hd, hfrag⟩ := halign i t ht
    rw [explainFragment, if_pos hblank] at hfrag
    cases hfrag
    refine ⟨by rw [hd]; rfl, ?_⟩
    intro f g
    simp [explainFragment, hblank]

/-- Witness for C3: the empty fragment in a two-fragment batch gets the uniform
distribution 1/2 per label of the two-label set. -/
theorem blank_fragment_uniform_no_inference_witness :
    ([[("A", (1 : ℚ)/2), ("B", (1 : ℚ)/2)], [("A", (1 : ℚ)/2), ("B", (1 : ℚ)/2)]] :
        List ProbDict)[0]? =
      some (modelW.labels.map (fun l => (l, (1 : ℚ) / modelW.labels.length))) ∧
    ∀ f g : String → Except String (List ℚ),
      explainFragment ⟨f, modelW.labels⟩ "" = explainFragment ⟨g, modelW.labels⟩ "" :=
  blank_fragment_uniform_no_inference svcW modelW ["", "hi"] 0 ""
    [[("A", (1 : ℚ)/2), ("B", (1 : ℚ)/2)], [("A", (1 : ℚ)/2), ("B", (1 : ℚ)/2)]]
    rfl rfl (by decide) (by rfl)

/-! ### Claims C7, C8, C9, C10 -/

/-- Claim C7: whenever `predict` succeeds, the returned confidence is the
maximum of the probability distribution computed for the text (it is attained
in the distribution and no value exceeds it), and the returned label is the
Label Set entry at the argmax index — the first index attaining that
maximum. -/
theorem predict_confidence_is_max (svc : MLService) (text label : String) (conf : ℚ)
    (h : svc.predict text = Except.ok (label, conf)) :
    ∃ (m : Model) (probs : List ℚ) (idx : Nat),
      svc.model = some m ∧ m.probs text = Except.ok probs ∧
      probs[idx]? = some conf ∧ (∀ x ∈ probs, x ≤ conf) ∧
      (∀ j, j < idx → ∀ y, probs[j]? = some y → y < conf) ∧
      m.labels[idx]? = some label := by
  cases hm : svc.model with
  | none => simp [MLService.predict, hm] at h
  | some m =>
    cases htk : svc.tokenizer with
    | none => simp [MLService.predict, hm, htk] at h
    | some u =>
      simp only [MLService.predict, hm, htk] at h
      cases hp : m.probs text with
      | error e => simp [hp] at h
      | ok probs =>
        simp only [hp] at h
        cases hmax : torchMax probs with
        | none => simp [hmax] at h
        | some ci =>
          obtain ⟨cf, idx⟩ := ci
          simp only [hmax] at h
          cases hl : m.id2label idx with
          | none => simp [hl] at h
          | some lab =>
            simp only [hl, Except.ok.injEq, Prod.mk.injEq] at h
            obtain ⟨rfl, rfl⟩ := h
            obtain ⟨h1, h2, h3⟩ := torchMax_spec probs cf idx hmax
            exact ⟨m, probs, idx, rfl, hp, h1, h2, h3, hl⟩

/-- Witness for C7: on a concrete loaded service whose distribution is
`[1/2, 1/2]`, the prediction returns label "A" with confidence 1/2, and the
theorem exhibits that confidence as the distribution's maximum at the first
argmax index. -/
theorem predict_confidence_is_max_witness :
    ∃ (m : Model) (probs : List ℚ) (idx : Nat),
      svcW.model = some m ∧ m.probs "text" = Except.ok probs ∧
      probs[idx]? = some ((1 : ℚ)/2) ∧ (∀ x ∈ probs, x ≤ (1 : ℚ)/2) ∧
      (∀ j, j < idx → ∀ y, probs[j]? = some y → y < (1 : ℚ)/2) ∧
      m.labels[idx]? = some "A" :=
  predict_confidence_is_max svcW "text" "A" ((1 : ℚ)/2) (by
    simp [MLService.predict, svcW, modelW, torchMax, torchMaxAux, Model.id2label])

/-- Claim C8: invoking `predict` before the model and tokenizer are loaded
yields the not-loaded `RuntimeError` (no prediction is produced), and the
`/classify` handler surfaces it as HTTP 500. -/
theorem predict_requires_loaded_model (svc : MLService) (text : String)
    (h : svc.model = none ∨ svc.tokenizer = none) :
    svc.predict text = Except.error modelNotLoadedMsg ∧
    classify_contract svc ⟨text⟩ = ApiResult.httpError 500 modelNotLoadedMsg := by
  have hp : svc.predict text = Except.error modelNotLoadedMsg := by
    cases hm : svc.model with
    | none => cases htk : svc.tokenizer <;> simp [MLService.predict, hm, htk]
    | some m =>
      cases htk : svc.tokenizer with
      | none => simp [MLService.predict, hm, htk]
      | some u =>
        rcases h with h | h
        · rw [hm] at h; cases h
        · rw [htk] at h; cases h
  refine ⟨hp, ?_⟩
  rw [classify_contract, hp]

/-- The service in its freshly-constructed state, before `load` is called. -/
def unloadedService : MLService := ⟨none, none⟩

/-- Witness for C8: the freshly-constructed service fails with the not-loaded
error and the endpoint answers HTTP 500. -/
theorem predict_requires_loaded_model_witness :
    unloadedService.predict "some contract text" = Except.error modelNotLoadedMsg ∧
    classify_contract unloadedService ⟨"some contract text"⟩ =
      ApiResult.httpError 500 modelNotLoadedMsg :=
  predict_requires_loaded_model unloadedService "some contract text" (Or.inl rfl)

/-- Claim C9: a single-classification body shorter than the 50-character
minimum is rejected by the validation layer with HTTP 422, and no model
forward pass happens for that request. -/
theorem short_text_rejected_before_model (svc : MLService) (body : String)
    (h : body.length < 50) :
    classify_route svc body =
      (ApiResult.httpError 422 "String should have at least 50 characters", 0) := by
  rw [classify_route, if_pos]
  exact h

/-- Witness for C9: a 5-character body is rejected with HTTP 422 and zero model
invocations, even on a loaded service. -/
theorem short_text_rejected_before_model_witness :
    classify_route svcW "short" =
      (ApiResult.httpError 422 "String should have at least 50 characters", 0) :=
  short_text_rejected_before_model svcW "short" (by decide)

/-- Claim C10: any exception inside the model call path during a
single-classification call is answered with HTTP 500 (whose detail is the
exception text), and never with a success response. -/
theorem classify_internal_error_500 (svc : MLService) (req : ContractRequest)
    (e : String) (h : svc.predict req.text = Except.error e) :
    classify_contract svc req = ApiResult.httpError 500 e ∧
    ∀ resp, classify_contract svc req ≠ ApiResult.ok resp := by
  have h1 : classify_contract svc req = ApiResult.httpError 500 e := by
    rw [classify_contract, h]
  refine ⟨h1, fun resp hc => ?_⟩
  rw [h1] at hc
  cases hc

/-- A loaded service whose model raises on every inference. -/
def failingService : MLService :=
  ⟨some ⟨fun _ => Except.error "CUDA out of memory", ["A"]⟩, some ()⟩

/-- Witness for C10: a raising model call makes the endpoint answer HTTP 500
and never a success response. -/
theorem classify_internal_error_500_witness :
    classify_contract failingService ⟨"long enough contract text"⟩ =
      ApiResult.httpError 500 "CUDA out of memory" ∧
    ∀ resp, classify_contract failingService ⟨"long enough contract text"⟩ ≠
      ApiResult.ok resp :=
  classify_internal_error_500 failingService ⟨"long enough contract text"⟩
    "CUDA out of memory" (by rfl)

end ContractClassifier
